import Mathlib

/-!
Shallow embedding of `streamlit_v3.py`: the GraphML loader
(`load_all_networks`) and the Plotly encoding pipeline
(`create_plotly_graph`), with theorems checking the specification's
claims about them.

Modelling conventions:
* node identifiers are strings (GraphML ids), attribute dictionaries are
  association lists;
* Python numbers are rationals; Python `float(...)` is modelled by a
  decimal parser returning `Option ℚ`;
* operations that can raise (`min`/`max` of an empty sequence, `min` over
  values of incomparable types, `pos[node]` for the layout) are modelled
  in `Option`, with `none` standing for a raised exception;
* `networkx.spring_layout` is an external library routine; it is modelled
  as an abstract deterministic function of the node list, the edge list,
  `k`, the iteration count and the seed, which is the seeding contract the
  source relies on.
-/

/-- A Python value stored in a node-attribute dictionary: a string or a number. -/
inductive AttrValue where
  | str (s : String)
  | num (q : ℚ)
deriving DecidableEq

/-- A node-attribute dictionary, as an association list. -/
abbrev Attrs := List (String × AttrValue)

/-- Association-list lookup: `d.get(k)` returning `None` when absent. -/
def dictFind (d : Attrs) (k : String) : Option AttrValue :=
  (d.find? (fun p => p.1 = k)).map Prod.snd

/-- Python `d.get(k, default)`. -/
def dictGet (d : Attrs) (k : String) (default : AttrValue) : AttrValue :=
  (dictFind d k).getD default

/-- Python `d[k] = v` on a dictionary that already holds `k` (in-place update). -/
def dictSet (d : Attrs) (k : String) (v : AttrValue) : Attrs :=
  d.map (fun p => if p.1 = k then (k, v) else p)

/-- A `networkx` graph as read from GraphML: nodes with attribute
dictionaries, in iteration order, and undirected edges in iteration order
(parallel edges and self-loops are allowed, as lists). -/
structure Graph where
  nodeData : List (String × Attrs)
  edges : List (String × String)
deriving DecidableEq

/-- Iteration order of `nx_graph.nodes()`. -/
def nodesList (G : Graph) : List String :=
  G.nodeData.map Prod.fst

/-- Attribute dictionary of a node, `nx_graph.nodes[node]`. -/
def nodeAttrs (G : Graph) (v : String) : Attrs :=
  ((G.nodeData.find? (fun p => p.1 = v)).map Prod.snd).getD []

/-- `nx_graph.degree[v]`: the number of edge endpoints incident to `v`
(a self-loop counts twice), computed from the edge list alone. -/
def degree (G : Graph) (v : String) : ℕ :=
  (G.edges.map (fun e =>
    (if e.1 = v then 1 else 0) + (if e.2 = v then 1 else 0))).sum

/-- Python `s.endswith(suffix)`. -/
def pyEndsWith (s suffix : String) : Bool :=
  suffix.data.isSuffixOf s.data

/-- Fuel-driven worker for `pyReplace`: replaces non-overlapping
occurrences of `old` left to right, as Python `str.replace` does. The
fuel starts at the length of the string, which suffices when `old` is
nonempty (the only way the source calls it). -/
def replaceFuel (old new : List Char) : ℕ → List Char → List Char
  | 0, s => s
  | _ + 1, [] => []
  | fuel + 1, c :: rest =>
    if old.isPrefixOf (c :: rest) then
      new ++ replaceFuel old new fuel ((c :: rest).drop old.length)
    else
      c :: replaceFuel old new fuel rest

/-- Python `s.replace(old, new)`: every non-overlapping occurrence of
`old` is replaced, scanning left to right. -/
def pyReplace (s old new : String) : String :=
  ⟨replaceFuel old.data new.data s.data.length s.data⟩

/-- One digit-string's value, most significant digit first. -/
def digitsVal (ds : List Char) : ℕ :=
  ds.foldl (fun a c => a * 10 + (c.toNat - 48)) 0

/-- Model of Python `float(s)` restricted to what GraphML `size` fields
hold: optional surrounding spaces, an optional sign, decimal digits with
an optional single decimal point. Returns `none` when the string does not
parse (Python raises `ValueError`). -/
def pyFloat? (s : String) : Option ℚ :=
  let cs := (s.data.dropWhile (· = ' ')).reverse.dropWhile (· = ' ') |>.reverse
  let isNeg : Bool :=
    match cs with
    | '-' :: _ => true
    | _ => false
  let body : List Char :=
    match cs with
    | '-' :: r => r
    | '+' :: r => r
    | r => r
  let ip := body.takeWhile Char.isDigit
  let rest := body.dropWhile Char.isDigit
  let mag : Option ℚ :=
    match rest with
    | [] => if ip.isEmpty then none else some ((digitsVal ip : ℚ))
    | '.' :: fr =>
      if fr.all Char.isDigit && !(ip.isEmpty && fr.isEmpty) then
        some ((digitsVal ip : ℚ) + (digitsVal fr : ℚ) / (10 : ℚ) ^ fr.length)
      else none
    | _ => none
  mag.map (fun q => if isNeg then -q else q)

/-- The per-node attribute cleanup inside `load_all_networks`: when the
`size` attribute is stored as a string, try `float` conversion; on
success overwrite it with the number, on failure (`except: pass`) keep
the dictionary unchanged. -/
def cleanData (d : Attrs) : Attrs :=
  match dictFind d "size" with
  | some (AttrValue.str s) =>
    match pyFloat? s with
    | some q => dictSet d "size" (AttrValue.num q)
    | none => d
  | _ => d

/-- The cleanup loop `for node, data in G.nodes(data=True)` applied to a
whole graph. -/
def cleanGraph (G : Graph) : Graph :=
  { nodeData := G.nodeData.map (fun p => (p.1, cleanData p.2)), edges := G.edges }

/-- One directory entry handed to the loader: a file name and the result
of `nx.read_graphml` on it (`none` when parsing raises). -/
structure FileEntry where
  name : String
  parse : Option Graph
deriving DecidableEq

/-- Python `dict` insertion `m[k] = v`: update in place when the key is
present, append otherwise. -/
def dictInsert (m : List (String × Graph)) (k : String) (v : Graph) :
    List (String × Graph) :=
  if m.any (fun p => p.1 = k) then
    m.map (fun p => if p.1 = k then (k, v) else p)
  else m ++ [(k, v)]

/-- Keys of a loader result, in dictionary order. -/
def dictKeys (m : List (String × Graph)) : List String :=
  m.map Prod.fst

/-- Whether the loader treats a file as a graph file. -/
def matchesExt (f : FileEntry) : Bool :=
  pyEndsWith f.name ".graphml"

/-- The dataset key the loader derives: `filename.replace(".graphml", "")`. -/
def keyOf (f : FileEntry) : String :=
  pyReplace f.name ".graphml" ""

/-- The body of the loader's `for filename in os.listdir(...)` loop: a
matching file whose parse succeeded is cleaned and inserted; a parse
failure is logged and skipped; other files are ignored. -/
def processFile (m : List (String × Graph)) (f : FileEntry) :
    List (String × Graph) :=
  if matchesExt f then
    match f.parse with
    | some G => dictInsert m (keyOf f) (cleanGraph G)
    | none => m
  else m

/-- `load_all_networks`: `none` models the `return None` taken when the
folder path does not exist; otherwise the directory listing is folded
through `processFile` starting from the empty dictionary. -/
def load_all_networks (folder : Option (List FileEntry)) :
    Option (List (String × Graph)) :=
  match folder with
  | none => none
  | some files => some (files.foldl processFile [])

/-- An abstract force-directed layout routine: a deterministic function of
the node list, the edge list, the constant `k`, the iteration count and
the seed, returning a position for every node (the contract of
`nx.spring_layout`). -/
structure LayoutAlg where
  run : List String → List (String × String) → ℚ → ℕ → ℕ → String → ℚ × ℚ

/-- The pipeline's layout call:
`nx.spring_layout(nx_graph, k=0.3, iterations=50, seed=42)`. -/
def layoutStep (A : LayoutAlg) (G : Graph) : String → ℚ × ℚ :=
  A.run (nodesList G) G.edges (3 / 10) 50 42

/-- Lines 67–76 of the source: `min_deg` and `degree_range` from the raw
degree list, guarded so the empty graph skips `min`/`max` (which would
raise, modelled by the unreachable `none` branch) and an all-equal degree
list forces the range to 1. -/
def degreeParams (G : Graph) : Option (ℕ × ℕ) :=
  let raw_degrees := (nodesList G).map (degree G)
  if 0 < raw_degrees.length then
    match raw_degrees.min?, raw_degrees.max? with
    | some mn, some mx => some (mn, if mx - mn = 0 then 1 else mx - mn)
    | _, _ => none
  else some (0, 1)

/-- Display form of an attribute value inside the hover f-string. -/
def showAttrValue : AttrValue → String
  | AttrValue.str s => s
  | AttrValue.num q => toString q

/-- The hover f-string of lines 100–104. -/
def mkHover (node : String) (degree_count : ℕ) (community_id : AttrValue) :
    String :=
  "<b>" ++ node ++ "</b><br>Degree: " ++ toString degree_count ++
    "<br>Community ID: " ++ showAttrValue community_id

/-- `community_id = node_data.get('community_id', 0)`. -/
def communityOf (G : Graph) (v : String) : AttrValue :=
  dictGet (nodeAttrs G v) "community_id" (AttrValue.num 0)

/-- `final_size = 10 + (normalized_size * 40)` for one node, given
`min_deg` and `degree_range`. -/
def finalSize (min_deg degree_range : ℕ) (d : ℕ) : ℚ :=
  10 + ((d : ℚ) - (min_deg : ℚ)) / (degree_range : ℚ) * 40

/-- Python `<` on attribute values: numbers compare with numbers, strings
with strings, and a mixed comparison raises `TypeError` (`none`). -/
def attrLT : AttrValue → AttrValue → Option Bool
  | AttrValue.num a, AttrValue.num b => some (decide (a < b))
  | AttrValue.str a, AttrValue.str b => some (decide (a < b))
  | _, _ => none

/-- Python `min` over a list of attribute values (raises on an empty list
or on a mixed-type comparison). -/
def pyMinAttr : List AttrValue → Option AttrValue
  | [] => none
  | a :: rest =>
    rest.foldlM (fun acc b =>
      (attrLT b acc).map (fun lt => if lt then b else acc)) a

/-- Python `max` over a list of attribute values. -/
def pyMaxAttr : List AttrValue → Option AttrValue
  | [] => none
  | a :: rest =>
    rest.foldlM (fun acc b =>
      (attrLT acc b).map (fun lt => if lt then b else acc)) a

/-- The geometry bundle `create_plotly_graph` assembles into the Plotly
figure: per-node coordinate, hover, size and color lists, the flattened
edge coordinate lists with their `None` separators, and the color-scale
bounds `cmin`/`cmax`. -/
structure Figure where
  node_x : List ℚ
  node_y : List ℚ
  node_text : List String
  node_sizes : List ℚ
  node_colors : List AttrValue
  edge_x : List (Option ℚ)
  edge_y : List (Option ℚ)
  cmin : AttrValue
  cmax : AttrValue
deriving DecidableEq

/-- The figure assembled from the layout positions and the degree
parameters: the per-node lists built by the loop of lines 79–105, the
edge lists of lines 108–115, and the given color bounds. -/
def buildFigure (pos : String → ℚ × ℚ) (min_deg degree_range : ℕ)
    (G : Graph) (cmn cmx : AttrValue) : Figure where
  node_x := (nodesList G).map (fun node => (pos node).1)
  node_y := (nodesList G).map (fun node => (pos node).2)
  node_text := (nodesList G).map (fun node =>
    mkHover node (degree G node) (communityOf G node))
  node_sizes := (nodesList G).map (fun node =>
    finalSize min_deg degree_range (degree G node))
  node_colors := (nodesList G).map (fun node => communityOf G node)
  edge_x := (G.edges.map (fun e =>
    [some (pos e.1).1, some (pos e.2).1, (none : Option ℚ)])).flatten
  edge_y := (G.edges.map (fun e =>
    [some (pos e.1).2, some (pos e.2).2, (none : Option ℚ)])).flatten
  cmin := cmn
  cmax := cmx

/-- The color list of the loop, needed before the figure to compute the
color bounds exactly as `cmin=min(node_colors) if node_colors else 0`. -/
def nodeColors (G : Graph) : List AttrValue :=
  (nodesList G).map (fun node => communityOf G node)

/-- `create_plotly_graph(nx_graph, network_name)`: layout with the fixed
seed, guarded degree statistics, the per-node and per-edge lists, and the
figure; `none` models an uncaught exception (only reachable from the
`min`/`max` calls). The `network_name` argument is unused in the
geometry, as in the source. -/
def create_plotly_graph (A : LayoutAlg) (nx_graph : Graph)
    (network_name : String) : Option Figure := do
  let pos := layoutStep A nx_graph
  let params ← degreeParams nx_graph
  let node_colors := nodeColors nx_graph
  let cmn ← if node_colors.isEmpty then some (AttrValue.num 0)
            else pyMinAttr node_colors
  let cmx ← if node_colors.isEmpty then some (AttrValue.num 1)
            else pyMaxAttr node_colors
  pure (buildFigure pos params.1 params.2 nx_graph cmn cmx)

/-- State-passing form of the pipeline for the frame property: the graph
is threaded through every stage (layout, degree statistics, node loop,
edge loop, figure assembly), each stage returning the graph it leaves
behind; every stage only reads, so each returns its input graph. -/
def create_plotly_graph_st (A : LayoutAlg) (g0 : Graph)
    (network_name : String) : Option (Figure × Graph) := do
  let (pos, g1) := (layoutStep A g0, g0)
  let (params, g2) ← (degreeParams g1).map (fun p => (p, g1))
  let (node_colors, g3) := (nodeColors g2, g2)
  let (cmn, g4) ← (if node_colors.isEmpty then some (AttrValue.num 0)
                   else pyMinAttr node_colors).map (fun c => (c, g3))
  let (cmx, g5) ← (if node_colors.isEmpty then some (AttrValue.num 1)
                   else pyMaxAttr node_colors).map (fun c => (c, g4))
  pure (buildFigure pos params.1 params.2 g5 cmn cmx, g5)

/-- The empty graph. -/
def emptyG : Graph := { nodeData := [], edges := [] }

/-- The spec's reading of key derivation in claim C4: the `.graphml`
extension stripped once from the end of the file name (the source instead
removes every occurrence of `.graphml`). -/
def stripExtOnce (s : String) : String :=
  if pyEndsWith s ".graphml" then
    ⟨s.data.take (s.data.length - ".graphml".data.length)⟩
  else s

/-- A concrete layout algorithm placing every node at the origin, used by
the witnesses. -/
def constLayout : LayoutAlg := ⟨fun _ _ _ _ _ _ => (0, 0)⟩

/-- A triangle graph: three nodes, three edges, every degree 2. -/
def triangleG : Graph :=
  { nodeData := [("u", []), ("v", []), ("w", [])],
    edges := [("u", "v"), ("v", "w"), ("w", "u")] }

/-- A star graph: center `c` of degree 4, four leaves of degree 1. -/
def starG : Graph :=
  { nodeData := [("c", []), ("l1", []), ("l2", []), ("l3", []), ("l4", [])],
    edges := [("c", "l1"), ("c", "l2"), ("c", "l3"), ("c", "l4")] }

/-- Graphs with identical structure but different stored `degree` and
`centrality` attributes, for the C3 witness. -/
def attrG1 : Graph :=
  { nodeData := [("u", [("degree", AttrValue.num 99)]), ("v", [])],
    edges := [("u", "v")] }

def attrG2 : Graph :=
  { nodeData := [("u", [("centrality", AttrValue.num 5)]),
                 ("v", [("degree", AttrValue.num 7)])],
    edges := [("u", "v")] }

lemma create_inv {A : LayoutAlg} {G : Graph} {name : String} {fig : Figure}
    (hfig : create_plotly_graph A G name = some fig) :
    ∃ p cmn cmx, degreeParams G = some p ∧
      fig = buildFigure (layoutStep A G) p.1 p.2 G cmn cmx := by
  unfold create_plotly_graph at hfig
  by_cases hne : (nodeColors G).isEmpty = true
  · simp only [hne, if_true, bind, Option.some_bind, Option.bind_eq_some,
      pure, Option.some.injEq] at hfig
    obtain ⟨p, hp, hfig⟩ := hfig
    exact ⟨p, _, _, hp, hfig.symm⟩
  · simp only [hne, if_false, bind, Option.some_bind, Option.bind_eq_some,
      pure, Option.some.injEq, Bool.false_eq_true] at hfig
    obtain ⟨p, hp, cmn, hcmn, cmx, hcmx, hfig⟩ := hfig
    exact ⟨p, cmn, cmx, hp, hfig.symm⟩

lemma flatten_triples_length (l : List (String × String))
    (f g : String × String → Option ℚ) :
    ((l.map (fun e => [f e, g e, (none : Option ℚ)])).flatten).length
      = 3 * l.length := by
  induction l with
  | nil => simp
  | cons e t ih => simp [ih]; ring

lemma flatten_triples_count (l : List (String × String))
    (f g : String × String → ℚ) :
    ((l.map (fun e =>
        [some (f e), some (g e), (none : Option ℚ)])).flatten).count none
      = l.length := by
  induction l with
  | nil => simp
  | cons e t ih => simp [List.count_cons, ih]

/-- C1: the pipeline emits one x, y, hover, size and color entry per node
of the graph and one edge segment (a pair of endpoint coordinates plus a
separator) per edge. -/
theorem pipeline_produces_all_nodes_and_edges (A : LayoutAlg) (G : Graph)
    (name : String) (fig : Figure)
    (hfig : create_plotly_graph A G name = some fig) :
    fig.node_x.length = (nodesList G).length ∧
    fig.node_y.length = (nodesList G).length ∧
    fig.node_text.length = (nodesList G).length ∧
    fig.node_sizes.length = (nodesList G).length ∧
    fig.node_colors.length = (nodesList G).length ∧
    fig.edge_x.length = 3 * G.edges.length ∧
    fig.edge_y.length = 3 * G.edges.length ∧
    fig.edge_x.count none = G.edges.length ∧
    fig.edge_y.count none = G.edges.length := by
  obtain ⟨p, cmn, cmx, hp, rfl⟩ := create_inv hfig
  exact ⟨by simp [buildFigure], by simp [buildFigure], by simp [buildFigure],
    by simp [buildFigure], by simp [buildFigure],
    flatten_triples_length _ _ _, flatten_triples_length _ _ _,
    flatten_triples_count _ _ _, flatten_triples_count _ _ _⟩

/-- C1 witness: the counting theorem instantiated on the triangle graph. -/
theorem pipeline_produces_all_nodes_and_edges_witness :
    ∃ fig, create_plotly_graph constLayout triangleG "t" = some fig ∧
      (fig.node_x.length = (nodesList triangleG).length ∧
       fig.node_y.length = (nodesList triangleG).length ∧
       fig.node_text.length = (nodesList triangleG).length ∧
       fig.node_sizes.length = (nodesList triangleG).length ∧
       fig.node_colors.length = (nodesList triangleG).length ∧
       fig.edge_x.length = 3 * triangleG.edges.length ∧
       fig.edge_y.length = 3 * triangleG.edges.length ∧
       fig.edge_x.count none = triangleG.edges.length ∧
       fig.edge_y.count none = triangleG.edges.length) := by
  have h : (create_plotly_graph constLayout triangleG "t").isSome := by decide
  exact ⟨_, (Option.some_get h).symm,
    pipeline_produces_all_nodes_and_edges _ _ _ _ (Option.some_get h).symm⟩

/-- C10: on the zero-node graph the pipeline still returns a figure: the
guarded branch yields `min_deg = 0` and `degree_range = 1` without
evaluating `min`/`max` of the empty degree list, and the color bounds
default to `cmin = 0`, `cmax = 1`. -/
theorem empty_graph_no_crash (A : LayoutAlg) (name : String) :
    degreeParams emptyG = some (0, 1) ∧
    create_plotly_graph A emptyG name =
      some { node_x := [], node_y := [], node_text := [], node_sizes := [],
             node_colors := [], edge_x := [], edge_y := [],
             cmin := AttrValue.num 0, cmax := AttrValue.num 1 } :=
  ⟨rfl, rfl⟩

lemma degreeParams_of_minmax {G : Graph} {mn mx : ℕ}
    (hmn : ((nodesList G).map (degree G)).min? = some mn)
    (hmx : ((nodesList G).map (degree G)).max? = some mx) :
    degreeParams G = some (mn, if mx - mn = 0 then 1 else mx - mn) := by
  have hpos : 0 < ((nodesList G).map (degree G)).length := by
    rcases Nat.eq_zero_or_pos ((nodesList G).map (degree G)).length with h | h
    · rw [List.length_eq_zero] at h
      rw [h] at hmn
      simp at hmn
    · exact h
  simp only [degreeParams, if_pos hpos, hmn, hmx]

/-- C2: pixel sizes follow the min-max normalization formula
`10 + 40 * (degree - minDeg) / range` with the range forced to 1 when all
degrees agree; sizes stay in [10, 50], minimum-degree nodes map to 10,
maximum-degree nodes to 50 when the range is positive, and all sizes are
10 when every degree is equal. -/
theorem pixel_size_minmax_normalization (A : LayoutAlg) (G : Graph)
    (name : String) (fig : Figure) (mn mx : ℕ)
    (hfig : create_plotly_graph A G name = some fig)
    (hmn : ((nodesList G).map (degree G)).min? = some mn)
    (hmx : ((nodesList G).map (degree G)).max? = some mx) :
    fig.node_sizes = (nodesList G).map (fun v =>
      10 + 40 * (((degree G v : ℚ) - (mn : ℚ)) /
        (((if mx - mn = 0 then 1 else mx - mn) : ℕ) : ℚ))) ∧
    (∀ s ∈ fig.node_sizes, 10 ≤ s ∧ s ≤ 50) ∧
    (∀ v ∈ nodesList G, degree G v = mn →
      finalSize mn (if mx - mn = 0 then 1 else mx - mn) (degree G v) = 10) ∧
    (∀ v ∈ nodesList G, 0 < mx - mn → degree G v = mx →
      finalSize mn (if mx - mn = 0 then 1 else mx - mn) (degree G v) = 50) ∧
    ((∀ v ∈ nodesList G, ∀ w ∈ nodesList G, degree G v = degree G w) →
      ∀ s ∈ fig.node_sizes, s = 10) := by
  obtain ⟨p, cmn, cmx', hp, rfl⟩ := create_inv hfig
  rw [degreeParams_of_minmax hmn hmx, Option.some.injEq] at hp
  subst hp
  rw [List.min?_eq_some_iff'] at hmn
  rw [List.max?_eq_some_iff'] at hmx
  obtain ⟨hmn_mem, hmn_le⟩ := hmn
  obtain ⟨hmx_mem, hmx_ge⟩ := hmx
  have hsizes : (buildFigure (layoutStep A G)
        (mn, if mx - mn = 0 then 1 else mx - mn).1
        (mn, if mx - mn = 0 then 1 else mx - mn).2 G cmn cmx').node_sizes =
      (nodesList G).map (fun v =>
        finalSize mn (if mx - mn = 0 then 1 else mx - mn) (degree G v)) := rfl
  have hrng_pos : (0 : ℚ) < ((if mx - mn = 0 then 1 else mx - mn : ℕ) : ℚ) := by
    rcases Nat.eq_zero_or_pos (mx - mn) with h | h
    · simp [h]
    · rw [if_neg (Nat.pos_iff_ne_zero.mp h)]
      exact_mod_cast h
  have hsize_mn : ∀ d : ℕ, d = mn →
      finalSize mn (if mx - mn = 0 then 1 else mx - mn) d = 10 := by
    intro d hd
    subst hd
    simp [finalSize]
  have key : ∀ d ∈ (nodesList G).map (degree G),
      10 ≤ finalSize mn (if mx - mn = 0 then 1 else mx - mn) d ∧
      finalSize mn (if mx - mn = 0 then 1 else mx - mn) d ≤ 50 := by
    intro d hd
    have h1 : mn ≤ d := hmn_le d hd
    have h2 : d ≤ mx := hmx_ge d hd
    rcases Nat.eq_zero_or_pos (mx - mn) with h0 | h0
    · have : d = mn := le_antisymm (by omega) h1
      rw [hsize_mn d this]
      norm_num
    · rw [if_neg (Nat.pos_iff_ne_zero.mp h0)]
      unfold finalSize
      have hc1 : (mn : ℚ) ≤ (d : ℚ) := by exact_mod_cast h1
      have hc2 : (d : ℚ) ≤ (mx : ℚ) := by exact_mod_cast h2
      have hcr : ((mx - mn : ℕ) : ℚ) = (mx : ℚ) - (mn : ℚ) := by
        have : mn ≤ mx := by omega
        exact Nat.cast_sub this
      have hrpos : (0 : ℚ) < (mx : ℚ) - (mn : ℚ) := by
        have : mn < mx := by omega
        have := (Nat.cast_lt (α := ℚ)).mpr this
        linarith
      rw [hcr]
      constructor
      · have hq : 0 ≤ ((d : ℚ) - mn) / ((mx : ℚ) - mn) :=
          div_nonneg (by linarith) (le_of_lt hrpos)
        linarith [mul_nonneg hq (by norm_num : (0 : ℚ) ≤ 40)]
      · have hq : ((d : ℚ) - mn) / ((mx : ℚ) - mn) ≤ 1 :=
          (div_le_one hrpos).mpr (by linarith)
        nlinarith
  refine ⟨?_, ?_, ?_, ?_, ?_⟩
  · rw [hsizes]
    refine List.map_congr_left (fun v _ => ?_)
    unfold finalSize
    ring
  · intro s hs
    rw [hsizes] at hs
    obtain ⟨v, hv, rfl⟩ := List.mem_map.mp hs
    exact key _ (List.mem_map_of_mem _ hv)
  · intro v _ hvmn
    exact hsize_mn _ hvmn
  · intro v _ hpos hvmx
    rw [if_neg (Nat.pos_iff_ne_zero.mp hpos)]
    unfold finalSize
    have hcr : ((mx - mn : ℕ) : ℚ) = (mx : ℚ) - (mn : ℚ) := by
      have : mn ≤ mx := by omega
      exact Nat.cast_sub this
    have hne : ((mx : ℚ) - mn) ≠ 0 := by
      have : mn < mx := by omega
      have := (Nat.cast_lt (α := ℚ)).mpr this
      intro h
      linarith
    rw [hvmx, hcr, div_self hne]
    norm_num
  · intro hall s hs
    rw [hsizes] at hs
    obtain ⟨v, hv, rfl⟩ := List.mem_map.mp hs
    obtain ⟨v0, hv0, hv0mn⟩ := List.mem_map.mp hmn_mem
    exact hsize_mn _ ((hall v hv v0 hv0).trans hv0mn)

/-- C2 witness: the normalization theorem instantiated on the star graph
with center degree 4 and leaf degree 1. -/
theorem pixel_size_minmax_normalization_witness :
    ∃ fig, create_plotly_graph constLayout starG "s" = some fig ∧
      (((nodesList starG).map (degree starG)).min? = some 1 ∧
       ((nodesList starG).map (degree starG)).max? = some 4) ∧
      ((∀ s ∈ fig.node_sizes, 10 ≤ s ∧ s ≤ 50) ∧
       (∀ v ∈ nodesList starG, 0 < 4 - 1 → degree starG v = 4 →
         finalSize 1 (if 4 - 1 = 0 then 1 else 4 - 1) (degree starG v) = 50)) := by
  have h : (create_plotly_graph constLayout starG "s").isSome := by decide
  have hmn : ((nodesList starG).map (degree starG)).min? = some 1 := by decide
  have hmx : ((nodesList starG).map (degree starG)).max? = some 4 := by decide
  have main := pixel_size_minmax_normalization constLayout starG "s" _ 1 4
    (Option.some_get h).symm hmn hmx
  exact ⟨_, (Option.some_get h).symm, ⟨hmn, hmx⟩, main.2.1, main.2.2.2.1⟩

lemma degree_eq_of_edges {G1 G2 : Graph} (he : G1.edges = G2.edges) :
    degree G1 = degree G2 := by
  funext v
  unfold degree
  rw [he]

/-- C3: the degree used for sizing and for the hover label is computed
from the edge list alone; two graphs with the same node list and edge
list but different stored attributes get identical pixel sizes and the
same degree figure in each hover label. -/
theorem degree_is_live_edge_count (A : LayoutAlg) (G1 G2 : Graph)
    (name1 name2 : String) (fig1 fig2 : Figure)
    (hn : nodesList G1 = nodesList G2) (he : G1.edges = G2.edges)
    (h1 : create_plotly_graph A G1 name1 = some fig1)
    (h2 : create_plotly_graph A G2 name2 = some fig2) :
    (∀ v, degree G1 v = degree G2 v) ∧
    fig1.node_sizes = fig2.node_sizes ∧
    fig1.node_text = (nodesList G1).map (fun v =>
      mkHover v (degree G1 v) (communityOf G1 v)) ∧
    fig2.node_text = (nodesList G1).map (fun v =>
      mkHover v (degree G1 v) (communityOf G2 v)) := by
  have hdeg : degree G1 = degree G2 := degree_eq_of_edges he
  have hdp : degreeParams G1 = degreeParams G2 := by
    simp only [degreeParams, hn, hdeg]
  obtain ⟨p1, cm1, cx1, hp1, rfl⟩ := create_inv h1
  obtain ⟨p2, cm2, cx2, hp2, rfl⟩ := create_inv h2
  rw [hdp, hp2, Option.some.injEq] at hp1
  subst hp1
  refine ⟨fun v => by rw [hdeg], ?_, rfl, ?_⟩
  · show (nodesList G1).map _ = (nodesList G2).map _
    simp only [hn, hdeg]
  · show (nodesList G2).map _ = (nodesList G1).map _
    simp only [hn, hdeg]

/-- C3 witness: the independence theorem instantiated on two concrete
graphs that differ only in their stored attributes. -/
theorem degree_is_live_edge_count_witness :
    ∃ fig1 fig2,
      create_plotly_graph constLayout attrG1 "a" = some fig1 ∧
      create_plotly_graph constLayout attrG2 "b" = some fig2 ∧
      ((∀ v, degree attrG1 v = degree attrG2 v) ∧
       fig1.node_sizes = fig2.node_sizes ∧
       fig1.node_text = (nodesList attrG1).map (fun v =>
         mkHover v (degree attrG1 v) (communityOf attrG1 v)) ∧
       fig2.node_text = (nodesList attrG1).map (fun v =>
         mkHover v (degree attrG1 v) (communityOf attrG2 v))) := by
  have e1 : (create_plotly_graph constLayout attrG1 "a").isSome := by decide
  have e2 : (create_plotly_graph constLayout attrG2 "b").isSome := by decide
  exact ⟨_, _, (Option.some_get e1).symm, (Option.some_get e2).symm,
    degree_is_live_edge_count constLayout attrG1 attrG2 "a" "b" _ _
      (by decide) (by decide)
      (Option.some_get e1).symm (Option.some_get e2).symm⟩

/-- C8: the layout call is a deterministic function of the graph (with
the constants `k = 0.3`, 50 iterations and seed 42 fixed), so two
pipeline runs on an identical graph return identical geometry. -/
theorem layout_and_pipeline_deterministic (A : LayoutAlg) (G1 G2 : Graph)
    (name : String) (h : G1 = G2) :
    (∀ v, layoutStep A G1 v = layoutStep A G2 v) ∧
    create_plotly_graph A G1 name = create_plotly_graph A G2 name := by
  subst h
  exact ⟨fun _ => rfl, rfl⟩

/-- C8 witness: determinism instantiated on the triangle graph. -/
theorem layout_and_pipeline_deterministic_witness :
    (∀ v, layoutStep constLayout triangleG v = layoutStep constLayout triangleG v) ∧
    create_plotly_graph constLayout triangleG "t" =
      create_plotly_graph constLayout triangleG "t" :=
  layout_and_pipeline_deterministic constLayout triangleG triangleG "t" rfl

lemma st_eq_map (A : LayoutAlg) (G : Graph) (name : String) :
    create_plotly_graph_st A G name =
      (create_plotly_graph A G name).map (fun f => (f, G)) := by
  unfold create_plotly_graph_st create_plotly_graph
  cases hdp : degreeParams G with
  | none => simp [hdp, bind]
  | some p =>
    simp only [hdp, bind, Option.map_some', Option.some_bind]
    by_cases hne : (nodeColors G).isEmpty = true
    · simp [hne]
    · simp only [hne, if_false, Bool.false_eq_true]
      cases hmn : pyMinAttr (nodeColors G) with
      | none => simp
      | some cmn =>
        simp only [Option.map_some', Option.some_bind]
        cases hmx : pyMaxAttr (nodeColors G) with
        | none => simp
        | some cmx => simp

/-- C9: the state-passing pipeline returns the graph it was given: the
node data (hence every attribute dictionary) and the edge list are
unchanged, and the figure is the one the plain pipeline computes. -/
theorem pipeline_never_mutates_graph (A : LayoutAlg) (G G' : Graph)
    (name : String) (fig : Figure)
    (hrun : create_plotly_graph_st A G name = some (fig, G')) :
    G'.nodeData = G.nodeData ∧ G'.edges = G.edges ∧
    (∀ v, nodeAttrs G' v = nodeAttrs G v) ∧
    create_plotly_graph A G name = some fig := by
  rw [st_eq_map] at hrun
  rw [Option.map_eq_some'] at hrun
  obtain ⟨f, hf, hpair⟩ := hrun
  have h1 : f = fig := congrArg Prod.fst hpair
  have h2 : G = G' := congrArg Prod.snd hpair
  subst h1
  subst h2
  exact ⟨rfl, rfl, fun _ => rfl, hf⟩

/-- C9 witness: a concrete run of the state-passing pipeline on the
triangle graph returns the graph unchanged. -/
theorem pipeline_never_mutates_graph_witness :
    ∃ pr, create_plotly_graph_st constLayout triangleG "t" = some pr ∧
      (pr.2.nodeData = triangleG.nodeData ∧ pr.2.edges = triangleG.edges ∧
       (∀ v, nodeAttrs pr.2 v = nodeAttrs triangleG v) ∧
       create_plotly_graph constLayout triangleG "t" = some pr.1) := by
  have h : (create_plotly_graph_st constLayout triangleG "t").isSome := by decide
  exact ⟨_, (Option.some_get h).symm,
    pipeline_never_mutates_graph constLayout triangleG _ "t" _
      (Option.some_get h).symm⟩

lemma any_key_iff {m : List (String × Graph)} {k : String} :
    (m.any (fun p => p.1 = k)) = true ↔ k ∈ dictKeys m := by
  simp only [List.any_eq_true, decide_eq_true_eq, dictKeys, List.mem_map]

lemma mem_dictKeys_dictInsert {m : List (String × Graph)} {k : String}
    {v : Graph} {a : String} :
    a ∈ dictKeys (dictInsert m k v) ↔ a ∈ dictKeys m ∨ a = k := by
  unfold dictInsert
  by_cases h : (m.any (fun p => p.1 = k)) = true
  · rw [if_pos h]
    have hkeys : dictKeys (m.map (fun p => if p.1 = k then (k, v) else p))
        = dictKeys m := by
      unfold dictKeys
      rw [List.map_map]
      refine List.map_congr_left (fun p _ => ?_)
      by_cases hpk : p.1 = k
      · simp [hpk]
      · simp [hpk]
    rw [hkeys]
    constructor
    · exact Or.inl
    · rintro (ha | rfl)
      · exact ha
      · exact any_key_iff.mp h
  · rw [if_neg h]
    simp [dictKeys]

lemma mem_keys_foldl (files : List FileEntry) (acc : List (String × Graph))
    (k : String) :
    k ∈ dictKeys (files.foldl processFile acc) ↔
      k ∈ dictKeys acc ∨
        ∃ f ∈ files, matchesExt f = true ∧ f.parse.isSome ∧ keyOf f = k := by
  induction files generalizing acc with
  | nil => simp
  | cons f t ih =>
    rw [List.foldl_cons, ih]
    have step : k ∈ dictKeys (processFile acc f) ↔
        k ∈ dictKeys acc ∨
          (matchesExt f = true ∧ f.parse.isSome ∧ keyOf f = k) := by
      by_cases hm : matchesExt f = true
      · cases hp : f.parse with
        | none =>
          have hpf : processFile acc f = acc := by simp [processFile, hm, hp]
          rw [hpf]
          simp [hp]
        | some Gp =>
          have hpf : processFile acc f
              = dictInsert acc (keyOf f) (cleanGraph Gp) := by
            simp [processFile, hm, hp]
          rw [hpf, mem_dictKeys_dictInsert]
          simp [hm, hp, eq_comm]
      · have hpf : processFile acc f = acc := by simp [processFile, hm]
        rw [hpf]
        simp [hm]
    rw [step]
    constructor
    · rintro ((h | hf) | ⟨g, hg, hgm, hgs, hgk⟩)
      · exact Or.inl h
      · exact Or.inr ⟨f, List.mem_cons_self f t, hf⟩
      · exact Or.inr ⟨g, List.mem_cons_of_mem f hg, hgm, hgs, hgk⟩
    · rintro (h | ⟨g, hg, hgm, hgs, hgk⟩)
      · exact Or.inl (Or.inl h)
      · rcases List.mem_cons.mp hg with rfl | hg'
        · exact Or.inl (Or.inr ⟨hgm, hgs, hgk⟩)
        · exact Or.inr ⟨g, hg', hgm, hgs, hgk⟩

lemma keys_foldl_of_nodup (files : List FileEntry)
    (acc : List (String × Graph))
    (hparse : ∀ f ∈ files, matchesExt f = true → f.parse.isSome)
    (hnodup : (dictKeys acc ++ (files.filter matchesExt).map keyOf).Nodup) :
    dictKeys (files.foldl processFile acc)
      = dictKeys acc ++ (files.filter matchesExt).map keyOf := by
  induction files generalizing acc with
  | nil => simp
  | cons f t ih =>
    rw [List.foldl_cons]
    by_cases hm : matchesExt f = true
    · cases hp : f.parse with
      | none =>
        have := hparse f (List.mem_cons_self f t) hm
        rw [hp] at this
        simp at this
      | some Gp =>
        have hpf : processFile acc f
            = dictInsert acc (keyOf f) (cleanGraph Gp) := by
          simp [processFile, hm, hp]
        have hfilter : (f :: t).filter matchesExt = f :: t.filter matchesExt := by
          simp [List.filter_cons, hm]
        rw [hfilter] at hnodup ⊢
        have hnotin : keyOf f ∉ dictKeys acc := by
          intro hin
          have hdisj := (List.nodup_append.mp hnodup).2.2
          exact hdisj hin (by simp)
        have hins : dictKeys (dictInsert acc (keyOf f) (cleanGraph Gp))
            = dictKeys acc ++ [keyOf f] := by
          unfold dictInsert
          rw [if_neg (fun h => hnotin (any_key_iff.mp h))]
          simp [dictKeys]
        have hnodup' : (dictKeys (dictInsert acc (keyOf f) (cleanGraph Gp))
            ++ (t.filter matchesExt).map keyOf).Nodup := by
          rw [hins, List.append_assoc, List.singleton_append]
          simpa using hnodup
        rw [hpf, ih _ (fun g hg hgm => hparse g (List.mem_cons_of_mem f hg) hgm)
          hnodup', hins]
        simp [List.append_assoc]
    · have hpf : processFile acc f = acc := by simp [processFile, hm]
      have hfilter : (f :: t).filter matchesExt = t.filter matchesExt := by
        simp [List.filter_cons, hm]
      rw [hfilter] at hnodup ⊢
      rw [hpf, ih _ (fun g hg hgm => hparse g (List.mem_cons_of_mem f hg) hgm)
        hnodup]

/-- C4 counterexample: in a directory holding `a.graphml` and
`a.graphml.graphml` the loader produces the single key `a`, because the
key is computed by replacing every occurrence of `.graphml`; the second
file's extension-stripped name `a.graphml` is not among the keys, and two
matching files yield one key rather than one key each. -/
theorem loader_key_not_suffix_stripped :
    load_all_networks (some [⟨"a.graphml", some emptyG⟩,
        ⟨"a.graphml.graphml", some emptyG⟩])
      = some [("a", cleanGraph emptyG)] ∧
    stripExtOnce "a.graphml.graphml" = "a.graphml" ∧
    ("a" : String) ≠ "a.graphml" := by
  exact ⟨by decide, by decide, by decide⟩

/-- C4 amended: for an existing directory whose graph files all parse and
whose derived keys are pairwise distinct, the mapping has exactly one key
per file ending in `.graphml`, in order, and each key is the file name
with every occurrence of `.graphml` removed (files with colliding derived
keys overwrite one another instead of contributing separate keys). -/
theorem loader_keys_replace_all_occurrences (files : List FileEntry)
    (m : List (String × Graph))
    (hparse : ∀ f ∈ files, matchesExt f = true → f.parse.isSome)
    (hnodup : ((files.filter matchesExt).map keyOf).Nodup)
    (hm : load_all_networks (some files) = some m) :
    dictKeys m = (files.filter matchesExt).map keyOf := by
  have hm' : files.foldl processFile [] = m := by
    simpa [load_all_networks] using hm
  rw [← hm']
  have := keys_foldl_of_nodup files [] hparse (by simpa [dictKeys] using hnodup)
  simpa [dictKeys] using this

/-- C4 witness: the folder `a.graphml`, `b.graphml`, `notes.txt` yields
exactly the keys `a` and `b`. -/
theorem loader_keys_replace_all_occurrences_witness :
    ∃ m, load_all_networks (some [⟨"a.graphml", some emptyG⟩,
        ⟨"b.graphml", some emptyG⟩, ⟨"notes.txt", none⟩]) = some m ∧
      dictKeys m = ["a", "b"] := by
  refine ⟨_, rfl, ?_⟩
  have := loader_keys_replace_all_occurrences
    [⟨"a.graphml", some emptyG⟩, ⟨"b.graphml", some emptyG⟩,
     ⟨"notes.txt", none⟩] _ (by decide) (by decide) rfl
  rw [this]
  decide

/-- C5: the loader returns the `not found` sentinel exactly when the
directory does not exist, and an existing directory with no `.graphml`
files yields the empty mapping, which is distinct from the sentinel. -/
theorem loader_sentinel_vs_empty :
    (∀ folder, load_all_networks folder = none ↔ folder = none) ∧
    (∀ files : List FileEntry, (∀ f ∈ files, matchesExt f = false) →
      load_all_networks (some files) = some []) := by
  constructor
  · intro folder
    cases folder <;> simp [load_all_networks]
  · intro files hnone
    have : ∀ acc : List (String × Graph), files.foldl processFile acc = acc := by
      induction files with
      | nil => intro acc; rfl
      | cons f t ih =>
        intro acc
        have hf : matchesExt f = false := hnone f (List.mem_cons_self f t)
        have hpf : processFile acc f = acc := by
          simp [processFile, hf]
        rw [List.foldl_cons, hpf]
        exact ih (fun g hg => hnone g (List.mem_cons_of_mem f hg)) acc
    simp [load_all_networks, this]

/-- C5 witness: a directory with only `notes.txt` maps to the empty
mapping while a missing directory maps to the sentinel. -/
theorem loader_sentinel_vs_empty_witness :
    load_all_networks (some [⟨"notes.txt", none⟩]) = some [] ∧
    load_all_networks none = none :=
  ⟨loader_sentinel_vs_empty.2 [⟨"notes.txt", none⟩] (by decide),
   (loader_sentinel_vs_empty.1 none).mpr rfl⟩

/-- C6: one file whose parse raises is skipped: its key is absent from
the result, while every other matching file that parses is still present
(assuming the derived keys of matching files are pairwise distinct). -/
theorem parse_failure_does_not_abort_batch (files : List FileEntry)
    (f : FileEntry) (m : List (String × Graph))
    (hf : f ∈ files) (hmatch : matchesExt f = true) (hbad : f.parse = none)
    (hnodup : ((files.filter matchesExt).map keyOf).Nodup)
    (hm : load_all_networks (some files) = some m) :
    keyOf f ∉ dictKeys m ∧
    (∀ g ∈ files, matchesExt g = true → g.parse.isSome →
      keyOf g ∈ dictKeys m) := by
  have hm' : files.foldl processFile [] = m := by
    simpa [load_all_networks] using hm
  subst hm'
  constructor
  · rw [mem_keys_foldl]
    rintro (h | ⟨g, hg, hgm, hgs, hgk⟩)
    · simp [dictKeys] at h
    · have hgf : g = f := List.inj_on_of_nodup_map hnodup
        (List.mem_filter.mpr ⟨hg, hgm⟩) (List.mem_filter.mpr ⟨hf, hmatch⟩) hgk
      rw [hgf, hbad] at hgs
      simp at hgs
  · intro g hg hgm hgs
    rw [mem_keys_foldl]
    exact Or.inr ⟨g, hg, hgm, hgs, rfl⟩

/-- C6 witness: with a corrupt `bad.graphml` next to a valid `a.graphml`
the valid key is present and the corrupt one absent. -/
theorem parse_failure_does_not_abort_batch_witness :
    ∃ m, load_all_networks (some [⟨"a.graphml", some emptyG⟩,
        ⟨"bad.graphml", none⟩]) = some m ∧
      keyOf ⟨"bad.graphml", none⟩ ∉ dictKeys m ∧
      (∀ g ∈ [FileEntry.mk "a.graphml" (some emptyG),
              FileEntry.mk "bad.graphml" none],
        matchesExt g = true → g.parse.isSome → keyOf g ∈ dictKeys m) := by
  refine ⟨_, rfl, ?_⟩
  exact parse_failure_does_not_abort_batch _ _ _ (by decide) (by decide)
    (by decide) (by decide) rfl

lemma dictFind_dictSet_self {d : Attrs} {k : String}
    (h : (dictFind d k).isSome) (v : AttrValue) :
    dictFind (dictSet d k v) k = some v := by
  induction d with
  | nil => simp [dictFind] at h
  | cons p t ih =>
    by_cases hpk : p.1 = k
    · simp [dictFind, dictSet, List.find?_cons, hpk]
    · have hstep : dictSet (p :: t) k v = p :: dictSet t k v := by
        simp [dictSet, hpk]
      have hfind : dictFind (p :: t) k = dictFind t k := by
        simp [dictFind, List.find?_cons, hpk]
      rw [hstep]
      have : dictFind (p :: dictSet t k v) k = dictFind (dictSet t k v) k := by
        simp [dictFind, List.find?_cons, hpk]
      rw [this]
      rw [hfind] at h
      exact ih h

/-- C7: a `size` attribute stored as a string is coerced: when the string
parses as a number the attribute becomes that number, and when it does
not parse the dictionary is left exactly as it was; the cleanup never
drops a node, and a matching file whose parse succeeded is always present
in the result whatever its `size` strings hold. -/
theorem size_attribute_best_effort_coercion :
    (∀ (d : Attrs) (s : String) (q : ℚ),
      dictFind d "size" = some (AttrValue.str s) → pyFloat? s = some q →
      dictFind (cleanData d) "size" = some (AttrValue.num q)) ∧
    (∀ (d : Attrs) (s : String),
      dictFind d "size" = some (AttrValue.str s) → pyFloat? s = none →
      cleanData d = d) ∧
    (∀ G : Graph, nodesList (cleanGraph G) = nodesList G) ∧
    (∀ (files : List FileEntry) (f : FileEntry) (Gf : Graph)
        (m : List (String × Graph)),
      f ∈ files → matchesExt f = true → f.parse = some Gf →
      load_all_networks (some files) = some m → keyOf f ∈ dictKeys m) := by
  refine ⟨?_, ?_, ?_, ?_⟩
  · intro d s q hfind hparse
    have hsome : (dictFind d "size").isSome := by rw [hfind]; rfl
    have hclean : cleanData d = dictSet d "size" (AttrValue.num q) := by
      unfold cleanData
      rw [hfind]
      simp only [hparse]
    rw [hclean]
    exact dictFind_dictSet_self hsome _
  · intro d s hfind hparse
    unfold cleanData
    rw [hfind]
    simp only [hparse]
  · intro G
    simp [nodesList, cleanGraph]
  · intro files f Gf m hf hmatch hparse hm
    have hm' : files.foldl processFile [] = m := by
      simpa [load_all_networks] using hm
    subst hm'
    rw [mem_keys_foldl]
    exact Or.inr ⟨f, hf, hmatch, by simp [hparse], rfl⟩

/-- C7 witness: a parsable `size` string becomes numeric, an unparsable
one is kept verbatim, and a file containing such a node still loads. -/
theorem size_attribute_best_effort_coercion_witness :
    dictFind (cleanData [("size", AttrValue.str "25")]) "size"
      = some (AttrValue.num 25) ∧
    cleanData [("size", AttrValue.str "abc")]
      = [("size", AttrValue.str "abc")] ∧
    nodesList (cleanGraph ⟨[("n", [("size", AttrValue.str "abc")])], []⟩)
      = nodesList ⟨[("n", [("size", AttrValue.str "abc")])], []⟩ ∧
    keyOf ⟨"g.graphml", some ⟨[("n", [("size", AttrValue.str "abc")])], []⟩⟩
      ∈ dictKeys ((load_all_networks (some [⟨"g.graphml",
          some ⟨[("n", [("size", AttrValue.str "abc")])], []⟩⟩])).getD []) := by
  refine ⟨?_, ?_, ?_, ?_⟩
  · exact size_attribute_best_effort_coercion.1 _ "25" 25 (by decide) (by decide)
  · exact size_attribute_best_effort_coercion.2.1 _ "abc" (by decide) (by decide)
  · exact size_attribute_best_effort_coercion.2.2.1 _
  · exact size_attribute_best_effort_coercion.2.2.2 _ _
      ⟨[("n", [("size", AttrValue.str "abc")])], []⟩ _ (by decide) (by decide)
      rfl rfl
